import Mathlib

/-!
Verification of the error-navigation and presentation engine of
SublimeLinter3 (`commands.py`): directional search over marked intervals
with wraparound (`GotoErrorCommand.goto_error`), point-to-mark resolution
(`GotoErrorCommand.find_mark_within`), and the quick-panel preview list
(`SublimelinterShowAllErrors.run`).

Buffer offsets are modelled as `Nat`.  A Sublime `Region` has two endpoints
`a` and `b` (possibly reversed); `begin` is their minimum, `end` their
maximum, and a region is empty iff the endpoints coincide.  A point `p` is
contained in a region iff `begin ≤ p ≤ end`; a region is contained in
another iff its `begin`/`end` span is included.
-/

/-- A Sublime text region: a pair of buffer offsets, possibly reversed. -/
structure Region where
  a : Nat
  b : Nat
deriving DecidableEq

namespace Region

/-- Python begin method of sublime.Region: the smaller endpoint. -/
def begin (r : Region) : Nat := min r.a r.b

/-- Python end method of sublime.Region: the larger endpoint. -/
def end_ (r : Region) : Nat := max r.a r.b

/-- Python empty method of sublime.Region: the endpoints coincide. -/
def isEmpty (r : Region) : Bool := r.a == r.b

/-- Python contains method of sublime.Region on a point: begin ≤ point ≤ end. -/
def containsPt (r : Region) (p : Nat) : Bool :=
  decide (r.begin ≤ p ∧ p ≤ r.end_)

/-- Python contains method of sublime.Region on a region: the span of the
other region is included in this one. -/
def containsReg (r : Region) (s : Region) : Bool :=
  decide (r.begin ≤ s.begin ∧ s.end_ ≤ r.end_)

end Region

/-! ## Navigator: `GotoErrorCommand.goto_error` -/

/-- The forward-scan predicate of goto_error, direction next: point equals
the region begin while the selection is a single empty range and the region
is non-empty, or point is strictly before the region begin. -/
def forwardPred (point : Nat) (empty_selection : Bool) (r : Region) : Bool :=
  (point == r.begin && empty_selection && !r.isEmpty) || decide (point < r.begin)

/-- The backward-scan predicate of goto_error, direction prev: point equals
the region end while the selection is a single empty range and the region is
non-empty, or point is strictly after the region end. -/
def backwardPred (point : Nat) (empty_selection : Bool) (r : Region) : Bool :=
  (point == r.end_ && empty_selection && !r.isEmpty) || decide (r.end_ < point)

/-- The region_to_select scan loop of goto_error: the first region of the
list satisfying the predicate, if any. -/
def scanFirst (p : Region → Bool) : List Region → Option Region
  | [] => none
  | r :: rs => if p r then some r else scanFirst p rs

/-- The directional search of goto_error: forward scans the region list in
order, backward scans the reversed region list. -/
def searchDir (forward : Bool) (point : Nat) (empty_selection : Bool)
    (regions : List Region) : Option Region :=
  if forward then scanFirst (forwardPred point empty_selection) regions
  else scanFirst (backwardPred point empty_selection) regions.reverse

/-- Lines 98-99 of goto_error: if the selection has no ranges, a zero-width
region at offset 0 is added first. -/
def normSel (sel : List Region) : List Region :=
  if sel.length == 0 then [⟨0, 0⟩] else sel

/-- Line 102 of commands.py: the selection has exactly one range and that
range is empty. -/
def empty_selection (sel : List Region) : Bool :=
  sel.length == 1 && (sel.headD ⟨0, 0⟩).isEmpty

/-- Line 105 of commands.py: the reference point is the begin of the first
selection range going forward, the end of the last one going backward. -/
def refPoint (forward : Bool) (sel : List Region) : Nat :=
  if forward then (sel.headD ⟨0, 0⟩).begin else (sel.getLastD ⟨0, 0⟩).end_

/-- The observable outcome of goto_error: either a region was chosen for
selection (and handed to select_lint_region), or the search failed, the
saved selection was restored and a message was shown. -/
inductive NavOutcome where
  | selected (r : Region)
  | noMore (restoredSel : List Region)
deriving DecidableEq

/-- Embedding of GotoErrorCommand.goto_error, commands.py lines 94-146.
Here sel is the selection of the view at call entry, regions the merged
mark-region list (the sublime.Selection filled from the warning and error
marks), forward encodes direction next, wrap the wrap_find setting.  The
result is none when the code raises IndexError (the index-0 access in the
wrap check with an empty region list), otherwise the outcome. -/
def goto_error (sel : List Region) (regions : List Region)
    (forward : Bool) (wrap : Bool) : Option NavOutcome :=
  let sel' := normSel sel
  let saved_sel := sel'
  let es := empty_selection sel'
  let point := refPoint forward sel'
  match searchDir forward point es regions with
  | some r => some (.selected r)
  | none =>
    match regions with
    | [] =>
      -- the length test is false, so Python indexes the empty list: IndexError
      none
    | r0 :: _ =>
      if (decide (1 < regions.length) || !r0.containsPt point) && wrap then
        some (.selected (if forward then r0 else regions.getLastD r0))
      else
        some (.noMore saved_sel)

/-! ## RegionLocator: `GotoErrorCommand.find_mark_within` -/

/-- The key order used by the mark sort in find_mark_within: ascending by
region begin.  The Python sort is stable, as is List.insertionSort, so equal
keys keep their original (warnings-before-errors) order. -/
def beginLe (x y : Region) : Prop := x.begin ≤ y.begin

instance : DecidableRel beginLe := fun _ _ => Nat.decLe _ _

/-- Embedding of GotoErrorCommand.find_mark_within, commands.py lines
168-180: pool the warning and error marks, sort ascending by begin, and
return the first mark that contains the given region, or none. -/
def find_mark_within (warningMarks errorMarks : List Region)
    (region : Region) : Option Region :=
  let marks := List.insertionSort beginLe (warningMarks ++ errorMarks)
  marks.find? (fun mark => mark.containsReg region)

/-! ## PanelRenderer: `SublimelinterShowAllErrors.run`

Python strings are modelled as `List Char`; the Python string comparison is
code-point lexicographic, which is the `List Char` lexicographic order. -/

/-- Python rstrip with newline and carriage return: remove trailing newline
and carriage-return characters. -/
def rstripNewlines (s : List Char) : List Char :=
  (s.reverse.dropWhile (fun c => c == '\n' || c == '\r')).reverse

/-- Python lstrip: remove leading whitespace. -/
def lstrip (s : List Char) : List Char := s.dropWhile Char.isWhitespace

/-- The body of the inner loop of `SublimelinterShowAllErrors.run` that builds
the preview string `code` for one finding (lines 222-231): `line` is the
already-lstripped line text, diff the number of characters lstrip removed,
column0 the original column of the finding.  The Nat subtraction in
max (column0 - diff) 0 already truncates at zero, matching the Python
max against 0 over the integers. -/
def previewCode (line : List Char) (diff : Nat) (column0 : Nat) : List Char :=
  let column := max (column0 - diff) 0
  let max_prefix_len := 40
  let vc : List Char × Nat :=
    if column > max_prefix_len then
      (('.' :: '.' :: '.' :: []) ++ line.drop (column - max_prefix_len),
       max_prefix_len + 3)
    else
      (line, column)
  -- code is the visible line up to column, the arrow, then the rest
  vc.1.take vc.2 ++ '➜' :: vc.1.drop vc.2

/-- The panel label: the 1-based line number, two spaces, the message. -/
def panelLabel (lineno : Nat) (message : List Char) : List Char :=
  (Nat.repr (lineno + 1)).data ++ ' ' :: ' ' :: message

/-- The order in which Python sorts the items of the per-line error dict:
ascending by line number (the dict keys are distinct, so the values never
enter the comparison). -/
def lineLe (x y : Nat × List (Nat × List Char)) : Prop := x.1 ≤ y.1

instance : DecidableRel lineLe := fun _ _ => Nat.decLe _ _

/-- The order in which Python sorts the (column, message) pairs of one
line: tuple comparison, ascending by column with the message as
lexicographic tie-break. -/
def colMsgLe (x y : Nat × List Char) : Prop :=
  x.1 < y.1 ∨ (x.1 = y.1 ∧ x.2 ≤ y.2)

instance : DecidableRel colMsgLe := fun x y => by
  unfold colMsgLe; infer_instance

/-- Embedding of SublimelinterShowAllErrors.run, commands.py lines 198-234.
Here errors is the per-line error table (an association list with distinct
line keys), lineText maps a line number to the full text of that line, and
text_point is the host resolver from (line, column) to absolute buffer
offset.  Returns the accumulated points and options lists. -/
def show_all_errors (errors : List (Nat × List (Nat × List Char)))
    (lineText : Nat → List Char) (text_point : Nat → Nat → Nat) :
    List Nat × List (List Char × List Char) :=
  let rows :=
    (List.insertionSort lineLe errors).flatMap (fun le =>
      let lineno := le.1
      let line0 := rstripNewlines (lineText lineno)
      let line := lstrip line0
      let diff := line0.length - line.length
      (List.insertionSort colMsgLe le.2).map (fun cm =>
        (text_point lineno cm.1,
         (panelLabel lineno cm.2, previewCode line diff cm.1))))
  (rows.map Prod.fst, rows.map Prod.snd)

/-! ## Helper lemmas -/

theorem scanFirst_eq_find (p : Region → Bool) (l : List Region) :
    scanFirst p l = l.find? p := by
  induction l with
  | nil => rfl
  | cons r rs ih => cases h : p r <;> simp [scanFirst, List.find?_cons, h, ih]

theorem goto_error_noMore_eq (sel regions : List Region) (forward wrap : Bool)
    (s : List Region) (h : goto_error sel regions forward wrap = some (.noMore s)) :
    s = normSel sel := by
  simp only [goto_error] at h
  split at h
  · simp at h
  · split at h
    · simp at h
    · split at h
      · simp at h
      · simpa using h.symm

theorem getLastD_eq_getLast (l : List Region) (h : l ≠ []) (d : Region) :
    l.getLastD d = l.getLast h := by
  cases l with
  | nil => exact absurd rfl h
  | cons x xs => simp [List.getLastD_eq_getLast?, List.getLast?_eq_getLast]

/-- Claim C2: for every non-empty selection and every ascending-by-start list
of mark intervals, forward navigation takes the reference point to be the
start of the first selection range and selects the first interval `I`, in
ascending scan order, with
`(point == I.begin && empty_selection && I nonempty) || point < I.begin`. -/
theorem goto_forward_selects_first_match (sel regions : List Region)
    (wrap : Bool) (hne : sel ≠ [])
    (_hasc : List.Pairwise beginLe regions) (r : Region)
    (hfind : regions.find?
        (forwardPred ((sel.head hne).begin) (empty_selection sel)) = some r) :
    goto_error sel regions true wrap = some (.selected r) := by
  cases sel with
  | nil => exact absurd rfl hne
  | cons s0 ss =>
    have hnorm : normSel (s0 :: ss) = s0 :: ss := by simp [normSel]
    simp only [List.head_cons] at hfind
    simp [goto_error, hnorm, searchDir, refPoint, scanFirst_eq_find, hfind]

/-- Claim C3: for every non-empty selection and every ascending-by-start list
of mark intervals, backward navigation takes the reference point to be the
end of the last selection range and selects the first interval `I`, scanning
in descending (reverse) order, with
`(point == I.end && empty_selection && I nonempty) || point > I.end`. -/
theorem goto_backward_selects_first_match (sel regions : List Region)
    (wrap : Bool) (hne : sel ≠ [])
    (_hasc : List.Pairwise beginLe regions) (r : Region)
    (hfind : regions.reverse.find?
        (backwardPred ((sel.getLast hne).end_) (empty_selection sel)) = some r) :
    goto_error sel regions false wrap = some (.selected r) := by
  cases sel with
  | nil => exact absurd rfl hne
  | cons s0 ss =>
    have hnorm : normSel (s0 :: ss) = s0 :: ss := by simp [normSel]
    rw [← getLastD_eq_getLast (s0 :: ss) hne ⟨0, 0⟩] at hfind
    simp only [List.getLastD_eq_getLast?] at hfind
    simp [goto_error, hnorm, searchDir, refPoint, scanFirst_eq_find, hfind]

/-- Claim C1: when the directional search finds no interval, `goto_error`
wraps iff `wrap` is enabled and (more than one interval exists, or the
reference point does not lie inside the first interval for forward
navigation / the last interval for backward navigation); on wrap it selects
the first interval (forward) or the last (backward); with exactly one
interval containing the reference point it reports not-found instead of
re-selecting it.  (The code tests `regions[0]` for both directions, but the
test only matters when a single interval exists, where first = last.) -/
theorem goto_wrap_condition (sel regions : List Region) (forward wrap : Bool)
    (hne : regions ≠ [])
    (hnomatch : searchDir forward (refPoint forward (normSel sel))
        (empty_selection (normSel sel)) regions = none) :
    (goto_error sel regions forward wrap =
        some (.selected (if forward then regions.head hne else regions.getLast hne))
      ↔ (wrap = true ∧ (1 < regions.length ∨
          (if forward then regions.head hne else regions.getLast hne).containsPt
            (refPoint forward (normSel sel)) = false)))
    ∧ (regions.length = 1 →
        (regions.head hne).containsPt (refPoint forward (normSel sel)) = true →
        goto_error sel regions forward wrap = some (.noMore (normSel sel))) := by
  cases regions with
  | nil => exact absurd rfl hne
  | cons r0 rs =>
    cases rs with
    | nil =>
      constructor
      · cases hc : Region.containsPt r0 (refPoint forward (normSel sel)) <;>
          cases wrap <;>
            simp [goto_error, hnomatch, hc]
      · intro _ hc
        simp only [List.head_cons] at hc
        simp [goto_error, hnomatch, hc]
    | cons r1 rs' =>
      have hlen : 1 < (r0 :: r1 :: rs').length := by simp
      have hlast : (r0 :: r1 :: rs').getLastD r0 = (r0 :: r1 :: rs').getLast hne :=
        getLastD_eq_getLast _ hne r0
      have hlast2 : (r1 :: rs').getLast?.getD r0 =
          (r1 :: rs').getLast (List.cons_ne_nil r1 rs') := by
        rw [List.getLast?_eq_getLast _ (List.cons_ne_nil r1 rs')]
        rfl
      constructor
      · cases wrap <;> simp [goto_error, hnomatch, hlast2]
      · intro h1
        simp at h1

/-- Claim C7, counterexample: with an empty selection at call entry and a
single mark `[0,5]`, backward navigation fails, but the restored selection is
the synthetic zero-width region `[0,0]` inserted at lines 98-99, not the
(empty) selection at call entry. -/
theorem goto_error_restore_entry_cex :
    goto_error [] [⟨0, 5⟩] false true = some (.noMore [⟨0, 0⟩]) ∧
    ([⟨0, 0⟩] : List Region) ≠ [] := by decide

/-- Claim C7 (amended): when directional navigation finds no applicable
interval, `goto_error` restores the selection that was saved after the
empty-selection normalisation; whenever the selection at call entry is
non-empty this is exactly the pre-call selection, and no fatal error is
raised on this path. -/
theorem goto_error_failure_restores_sel (sel regions : List Region)
    (forward wrap : Bool) (s : List Region)
    (h : goto_error sel regions forward wrap = some (.noMore s))
    (hne : sel ≠ []) : s = sel := by
  rw [goto_error_noMore_eq sel regions forward wrap s h]
  cases sel with
  | nil => exact absurd rfl hne
  | cons a as => simp [normSel]

theorem goto_error_failure_restores_sel_witness :
    ([⟨3, 3⟩] : List Region) = [⟨3, 3⟩] :=
  goto_error_failure_restores_sel [⟨3, 3⟩] [⟨0, 1⟩] true false [⟨3, 3⟩]
    (by decide) (by decide)

/-- Claim C9: the not-found branch of `goto_error` unconditionally indexes
`regions[0]` (and `regions[-1]` on backward wrap); with zero mark regions the
call aborts with `IndexError` (modelled as `none`), and with at least one
mark region every index access is in bounds, so the call always produces an
outcome. -/
theorem goto_error_regions_precondition (sel : List Region)
    (forward wrap : Bool) :
    goto_error sel [] forward wrap = none ∧
    ∀ regions : List Region, regions ≠ [] →
      (goto_error sel regions forward wrap).isSome = true := by
  constructor
  · cases forward <;> simp [goto_error, searchDir, scanFirst]
  · intro regions hne
    cases regions with
    | nil => exact absurd rfl hne
    | cons r0 rs =>
      simp only [goto_error]
      split
      · simp
      · split <;> simp

theorem goto_error_regions_precondition_witness :
    (goto_error [⟨0, 0⟩] [⟨0, 1⟩] true true).isSome = true :=
  (goto_error_regions_precondition [⟨0, 0⟩] true true).2 [⟨0, 1⟩] (by decide)

/-- Claim C10: a call with zero selection ranges behaves exactly like a call
whose selection is the single zero-width range at offset 0: the reference
point is offset 0, and on a not-found outcome the restored selection is that
synthetic range, not the original empty selection. -/
theorem goto_error_empty_entry_selection (regions : List Region)
    (forward wrap : Bool) :
    goto_error [] regions forward wrap =
        goto_error [⟨0, 0⟩] regions forward wrap ∧
    refPoint forward (normSel []) = 0 ∧
    ∀ s, goto_error [] regions forward wrap = some (.noMore s) →
      s = [⟨0, 0⟩] := by
  refine ⟨rfl, ?_, ?_⟩
  · cases forward <;> rfl
  · intro s h
    simpa [normSel] using goto_error_noMore_eq [] regions forward wrap s h

theorem goto_error_empty_entry_selection_witness :
    ([⟨0, 0⟩] : List Region) = [⟨0, 0⟩] :=
  (goto_error_empty_entry_selection [⟨0, 5⟩] false true).2.2 [⟨0, 0⟩] (by decide)

theorem goto_wrap_condition_witness :
    goto_error [⟨5, 5⟩] [⟨2, 3⟩] true true = some (.selected ⟨2, 3⟩) :=
  ((goto_wrap_condition [⟨5, 5⟩] [⟨2, 3⟩] true true (by decide) (by decide)).1).mpr
    ⟨rfl, Or.inr (by decide)⟩

theorem goto_forward_selects_first_match_witness :
    goto_error [⟨0, 0⟩] [⟨2, 3⟩] true true = some (.selected ⟨2, 3⟩) :=
  goto_forward_selects_first_match [⟨0, 0⟩] [⟨2, 3⟩] true (by decide)
    (by simp) ⟨2, 3⟩ (by decide)

theorem goto_backward_selects_first_match_witness :
    goto_error [⟨5, 5⟩] [⟨2, 3⟩] false true = some (.selected ⟨2, 3⟩) :=
  goto_backward_selects_first_match [⟨5, 5⟩] [⟨2, 3⟩] true (by decide)
    (by simp) ⟨2, 3⟩ (by decide)

theorem find_split {α : Type} (p : α → Bool) (l : List α) (x : α)
    (h : l.find? p = some x) :
    ∃ l₁ l₂, l = l₁ ++ x :: l₂ ∧ ∀ y ∈ l₁, p y = false := by
  induction l with
  | nil => simp at h
  | cons b bs ih =>
    cases hb : p b with
    | true =>
      rw [List.find?_cons_of_pos bs hb] at h
      exact ⟨[], bs, by simp [Option.some.inj h], by simp⟩
    | false =>
      rw [List.find?_cons_of_neg bs (by simp [hb])] at h
      obtain ⟨l₁, l₂, rfl, hl⟩ := ih h
      exact ⟨b :: l₁, l₂, rfl, by
        intro y hy
        rcases List.mem_cons.mp hy with rfl | hy'
        · exact hb
        · exact hl y hy'⟩

/-- Claim C4: `find_mark_within` returns the first interval, in
ascending-start order, that fully contains `R` (`I.begin ≤ R.begin` and
`R.end ≤ I.end`), and returns `none` exactly when no pooled mark contains
`R`; in particular a region spanning two disjoint marks yields `none`. -/
theorem find_mark_within_spec (warningMarks errorMarks : List Region)
    (R : Region) :
    (find_mark_within warningMarks errorMarks R = none ↔
      ∀ m ∈ warningMarks ++ errorMarks,
        ¬(m.begin ≤ R.begin ∧ R.end_ ≤ m.end_)) ∧
    (∀ m, find_mark_within warningMarks errorMarks R = some m →
      (m.begin ≤ R.begin ∧ R.end_ ≤ m.end_) ∧
      ∃ l₁ l₂,
        List.insertionSort beginLe (warningMarks ++ errorMarks) = l₁ ++ m :: l₂ ∧
        ∀ p ∈ l₁, ¬(p.begin ≤ R.begin ∧ R.end_ ≤ p.end_)) := by
  constructor
  · rw [show find_mark_within warningMarks errorMarks R =
        (List.insertionSort beginLe (warningMarks ++ errorMarks)).find?
          (fun mark => mark.containsReg R) from rfl, List.find?_eq_none]
    constructor
    · intro h m hm
      simpa [Region.containsReg] using
        h m (((List.perm_insertionSort beginLe _).mem_iff).mpr hm)
    · intro h m hm
      simpa [Region.containsReg] using
        h m (((List.perm_insertionSort beginLe _).mem_iff).mp hm)
  · intro m hm
    have hm' : (List.insertionSort beginLe (warningMarks ++ errorMarks)).find?
        (fun mark => mark.containsReg R) = some m := hm
    have hp := List.find?_some hm'
    refine ⟨by simpa [Region.containsReg] using hp, ?_⟩
    obtain ⟨l₁, l₂, heq, hall⟩ :=
      find_split (fun mark => mark.containsReg R) _ m hm'
    exact ⟨l₁, l₂, heq, fun p hp' => by
      simpa [Region.containsReg] using hall p hp'⟩

theorem find_mark_within_spec_witness :
    find_mark_within [⟨0, 2⟩] [⟨5, 7⟩] ⟨1, 6⟩ = none :=
  (find_mark_within_spec [⟨0, 2⟩] [⟨5, 7⟩] ⟨1, 6⟩).1.mpr (by decide)

/-- The preview construction exactly as the specification words it (§4.3
steps 3-5): `adjusted_column = max(original_column - D, 0)` computed over the
integers, `MAX_PREFIX = 40` truncation with a `"..."` prefix and
`display_column = MAX_PREFIX + 3`, and the arrow character inserted
immediately before the character at offset `display_column` (everything
before it, then the arrow, then the rest). -/
def previewSpec (visible_line : List Char) (D column : Nat) : List Char :=
  let adjusted : Nat := (max ((column : Int) - (D : Int)) 0).toNat
  let pb : List Char × Nat :=
    if adjusted > 40 then ("...".data ++ visible_line.drop (adjusted - 40), 40 + 3)
    else (visible_line, adjusted)
  pb.1.take pb.2 ++ '➜' :: pb.1.drop pb.2

/-- Claim C5: the panel preview follows the adjusted-column / truncation /
arrow-insertion rules of the specification; the `diff` subtracted is the
number of leading whitespace characters stripped from the line; and the
100-character line with column 90 yields display column 43, a `"..."`
prefix followed by the text from index 50, and the arrow at offset 43. -/
theorem preview_construction (line : List Char) (D column : Nat) :
    previewCode line D column = previewSpec line D column ∧
    (∀ s : List Char, s.length - (lstrip s).length =
      (s.takeWhile Char.isWhitespace).length) ∧
    previewCode (List.replicate 100 'a') 0 90 =
      '.' :: '.' :: '.' ::
        (List.replicate 40 'a' ++ '➜' :: List.replicate 10 'a') := by
  refine ⟨?_, ?_, by decide⟩
  · have h : (max ((column : Int) - (D : Int)) 0).toNat = max (column - D) 0 := by
      omega
    simp only [previewCode, previewSpec, h]
  · intro s
    have h := congrArg List.length (List.takeWhile_append_dropWhile
      (p := Char.isWhitespace) (l := s))
    simp only [List.length_append] at h
    simp only [lstrip]
    omega

/-- Claim C6: the target point of each panel entry is resolved from the original
`(line, column)` of the finding, before any whitespace stripping or
truncation: the `points` list does not depend on the line text at all, and
equals the `(line, column) → offset` resolver applied to the findings in
render order. -/
theorem panel_points_from_original_position
    (errors : List (Nat × List (Nat × List Char)))
    (text_point : Nat → Nat → Nat) (lineText lineText' : Nat → List Char) :
    (show_all_errors errors lineText text_point).1 =
        (show_all_errors errors lineText' text_point).1 ∧
    (show_all_errors errors lineText text_point).1 =
      (List.insertionSort lineLe errors).flatMap (fun le =>
        (List.insertionSort colMsgLe le.2).map (fun cm =>
          text_point le.1 cm.1)) := by
  have h : ∀ lt : Nat → List Char,
      (show_all_errors errors lt text_point).1 =
        (List.insertionSort lineLe errors).flatMap (fun le =>
          (List.insertionSort colMsgLe le.2).map (fun cm =>
            text_point le.1 cm.1)) := by
    intro lt
    simp only [show_all_errors, List.map_flatMap, List.map_map]
    rfl
  exact ⟨(h lineText).trans (h lineText').symm, h lineText⟩

instance : IsTotal (Nat × List (Nat × List Char)) lineLe :=
  ⟨fun a b => Nat.le_total a.1 b.1⟩

instance : IsTrans (Nat × List (Nat × List Char)) lineLe :=
  ⟨fun _ _ _ h1 h2 => Nat.le_trans h1 h2⟩

instance : IsTotal (Nat × List Char) colMsgLe := by
  constructor
  intro a b
  rcases Nat.lt_trichotomy a.1 b.1 with h | h | h
  · exact Or.inl (Or.inl h)
  · rcases le_total a.2 b.2 with h2 | h2
    · exact Or.inl (Or.inr ⟨h, h2⟩)
    · exact Or.inr (Or.inr ⟨h.symm, h2⟩)
  · exact Or.inr (Or.inl h)

instance : IsTrans (Nat × List Char) colMsgLe := by
  constructor
  intro a b c h1 h2
  rcases h1 with h1 | ⟨h1e, h1m⟩ <;> rcases h2 with h2 | ⟨h2e, h2m⟩
  · exact Or.inl (h1.trans h2)
  · exact Or.inl (h2e ▸ h1)
  · exact Or.inl (h1e ▸ h2)
  · exact Or.inr ⟨h1e.trans h2e, le_trans h1m h2m⟩

/-- The findings of one buffer in the order the panel renders them: lines
ascending, findings of one line ascending by `(column, message)`. -/
def renderTriples (errors : List (Nat × List (Nat × List Char))) :
    List (Nat × Nat × List Char) :=
  (List.insertionSort lineLe errors).flatMap (fun le =>
    (List.insertionSort colMsgLe le.2).map (fun cm => (le.1, cm.1, cm.2)))

/-- Ascending order on rendered findings: by line, then by (column, message). -/
def tripleLe (x y : Nat × Nat × List Char) : Prop :=
  x.1 < y.1 ∨ (x.1 = y.1 ∧ colMsgLe x.2 y.2)

/-- Claim C8: the panel lists its entries in render order — ascending by
line, within a line ascending by `(column, message)` with the message as
tie-break — and on the findings (2,5,"A"), (2,1,"B"), (1,0,"C") the render
order is C, B, A.  `hkeys` records that `errors` comes from a dict keyed by
line number, so the line keys are distinct. -/
theorem panel_ordering (errors : List (Nat × List (Nat × List Char)))
    (lineText : Nat → List Char) (text_point : Nat → Nat → Nat)
    (hkeys : errors.Pairwise (fun a b => a.1 ≠ b.1)) :
    (show_all_errors errors lineText text_point).2 =
      (renderTriples errors).map (fun t =>
        (panelLabel t.1 t.2.2,
         previewCode (lstrip (rstripNewlines (lineText t.1)))
           ((rstripNewlines (lineText t.1)).length -
             (lstrip (rstripNewlines (lineText t.1))).length) t.2.1)) ∧
    List.Pairwise tripleLe (renderTriples errors) ∧
    (renderTriples [(2, [(5, ['A']), (1, ['B'])]), (1, [(0, ['C'])])]).map
        (fun t => t.2.2) = [['C'], ['B'], ['A']] := by
  refine ⟨?_, ?_, by decide⟩
  · simp only [show_all_errors, renderTriples, List.map_flatMap, List.map_map]
    rfl
  · have houter : (List.insertionSort lineLe errors).Pairwise
        (fun a b => a.1 < b.1) := by
      have hs := List.sorted_insertionSort lineLe errors
      have hd : (List.insertionSort lineLe errors).Pairwise
          (fun a b => a.1 ≠ b.1) :=
        ((List.perm_insertionSort lineLe errors).pairwise_iff
          (fun h => Ne.symm h)).mpr hkeys
      exact (hs.and hd).imp (fun h => lt_of_le_of_ne h.1 h.2)
    rw [renderTriples, List.flatMap_def, List.pairwise_flatten]
    constructor
    · intro l hl
      obtain ⟨le, _, rfl⟩ := List.mem_map.mp hl
      rw [List.pairwise_map]
      exact (List.sorted_insertionSort colMsgLe le.2).imp
        (fun h => Or.inr ⟨rfl, h⟩)
    · rw [List.pairwise_map]
      refine houter.imp ?_
      intro a b hab x hx y hy
      obtain ⟨cx, _, rfl⟩ := List.mem_map.mp hx
      obtain ⟨cy, _, rfl⟩ := List.mem_map.mp hy
      exact Or.inl hab

theorem panel_ordering_witness :
    (renderTriples [(2, [(5, ['A']), (1, ['B'])]), (1, [(0, ['C'])])]).map
        (fun t => t.2.2) = [['C'], ['B'], ['A']] :=
  (panel_ordering [(2, [(5, ['A']), (1, ['B'])]), (1, [(0, ['C'])])]
    (fun _ => []) (fun _ _ => 0) (by decide)).2.2
